import Mathlib

/-!
# Verification of the solution-explorer graph view-model engine

Shallow embedding of `viewer/src/store.ts` (the Zustand architecture store:
navigation state machine, tree flattening, visible-set and relationship
filtering) and `viewer/src/utils/layout.ts` (type classification tables and
edge-anchor selection), together with proofs about the behaviour the
specification ascribes to them.

Components form a nested ownership tree; machine state is the navigation
slice of the store (`breadcrumbs`, `drillLevel`, `selectedComponentId`).
JavaScript exceptions (reading a property of `undefined`) are modelled with
`Except`; a thrown exception leaves the store state unchanged because the
`set` call is never reached.
-/

/-- A breadcrumb entry `{ id, name, type }` as pushed by `buildBreadcrumbs`. -/
structure BreadcrumbItem where
  id : String
  name : String
  type : String
deriving DecidableEq, Repr

/-- A node of the component tree (`Component` in `types.ts`), restricted to the
fields the view-model engine reads: `id`, `name`, `type`, the owned `children`
and the `files` path list. -/
inductive Component where
  | mk (id name type : String) (children : List Component) (files : List String)

def Component.id : Component → String
  | .mk i _ _ _ _ => i

def Component.name : Component → String
  | .mk _ n _ _ _ => n

def Component.type : Component → String
  | .mk _ _ t _ _ => t

def Component.children : Component → List Component
  | .mk _ _ _ c _ => c

def Component.files : Component → List String
  | .mk _ _ _ _ f => f

theorem Component.sizeOf_children_lt (c : Component) : sizeOf c.children < sizeOf c := by
  cases c with
  | mk i n t ch fs => simp [Component.children]; omega

/-- A directed relationship between component ids (`Relationship` in
`types.ts`). -/
structure Relationship where
  source : String
  target : String
  type : String
  label : Option String
  protocol : Option String
  port : Option Int
  bidirectional : Bool
deriving DecidableEq, Repr

/-- The immutable per-load model: component tree plus flat relationship
list (the slice of `Architecture` that the navigation engine reads). -/
structure Architecture where
  components : List Component
  relationships : List Relationship

/-- The mutable navigation slice of the store. -/
structure NavState where
  breadcrumbs : List BreadcrumbItem
  drillLevel : Option String
  selectedComponentId : Option String
deriving DecidableEq, Repr

/-- The store's initial navigation state: no breadcrumbs, no drill, no
selection. -/
def initialNavState : NavState := ⟨[], none, none⟩

/-- `findComponent` from `store.ts`: depth-first search of the component
forest for an id, returning the first match. -/
def findComponent : List Component → String → Option Component
  | [], _ => none
  | c :: rest, i =>
    if c.id = i then some c
    else
      match findComponent c.children i with
      | some found => some found
      | none => findComponent rest i
termination_by l _ => sizeOf l
decreasing_by
  all_goals have := Component.sizeOf_children_lt c
  all_goals simp
  all_goals omega

/-- The recursive `search` closure inside `buildBreadcrumbs`: depth-first
search carrying the current root-to-node path; returns the extended path at
the first node whose id matches the target. -/
def searchCrumbs : List Component → List BreadcrumbItem → String → Option (List BreadcrumbItem)
  | [], _, _ => none
  | c :: rest, path, tgt =>
    let current := path ++ [⟨c.id, c.name, c.type⟩]
    if c.id = tgt then some current
    else
      match searchCrumbs c.children current tgt with
      | some trail => some trail
      | none => searchCrumbs rest path tgt
termination_by l _ _ => sizeOf l
decreasing_by
  all_goals have := Component.sizeOf_children_lt c
  all_goals simp
  all_goals omega

/-- `buildBreadcrumbs` from `store.ts`: the root-to-target trail, or `[]`
when the target id is absent from the tree. -/
def buildBreadcrumbs (components : List Component) (targetId : String) : List BreadcrumbItem :=
  (searchCrumbs components [] targetId).getD []

/-- `HERO_TYPES` from `layout.ts`. -/
def HERO_TYPES : List String :=
  ["api-server", "mobile-client", "ios-client", "android-client", "web-client",
   "watch-app", "desktop-app", "cli-tool", "service", "application"]

/-- `isHeroType` from `layout.ts`. -/
def isHeroType (t : String) : Bool := HERO_TYPES.contains t

/-- `CLIENT_TYPES` from `layout.ts` (Domain 1: human-facing client types). -/
def CLIENT_TYPES : List String :=
  ["mobile-client", "ios-client", "android-client", "web-client", "watch-app",
   "desktop-app", "cli-tool"]

/-- `SERVER_TYPES` from `layout.ts` (Domain 2 candidates). -/
def SERVER_TYPES : List String := ["api-server", "service"]

/-- `isClientType` from `layout.ts`. -/
def isClientType (t : String) : Bool := CLIENT_TYPES.contains t

/-- `isServerType` from `layout.ts`. -/
def isServerType (t : String) : Bool := SERVER_TYPES.contains t

/-- `collectHeroComponents` from `store.ts`: recursively collect hero-type
components from any depth, recursing through `project` wrappers, keeping a
`repository` node itself when it holds no heroes, and keeping any other
non-hero component as a peer when its subtree holds no heroes. -/
def collectHeroComponents : List Component → List Component
  | [] => []
  | c :: rest =>
    (if c.type = "project" then
      collectHeroComponents c.children
    else if c.type = "repository" then
      let repoHeroes := collectHeroComponents c.children
      if repoHeroes.length > 0 then repoHeroes else [c]
    else if isHeroType c.type then
      [c]
    else
      let childHeroes := collectHeroComponents c.children
      if childHeroes.length > 0 then childHeroes else [c])
    ++ collectHeroComponents rest
termination_by l => sizeOf l
decreasing_by
  all_goals have := Component.sizeOf_children_lt c
  all_goals simp
  all_goals omega

/-- `flattenTopLevel` from `store.ts` (the spec's `computeTopLevel`): surface
all hero components, falling back to a one-level unwrap of `project`
containers when no heroes exist. -/
def flattenTopLevel (components : List Component) : List Component :=
  let heroes := collectHeroComponents components
  if heroes.length > 0 then heroes
  else
    components.foldr
      (fun c acc =>
        (if c.type = "project" ∧ c.children.length > 0 then c.children
         else if c.type = "repository" then [c]
         else [c]) ++ acc)
      []

/-- `getComponentById` from `store.ts`, for a loaded architecture. -/
def getComponentById (arch : Architecture) (i : String) : Option Component :=
  findComponent arch.components i

/-- `selectComponent` from `store.ts`, restricted to the navigation slice.
A null id clears the selection; an id found in the tree becomes the
selection; an unknown id is a no-op. -/
def selectComponent (arch : Architecture) (i : Option String) (s : NavState) : NavState :=
  match i with
  | none => { s with selectedComponentId := none }
  | some j =>
    match findComponent arch.components j with
    | none => s
    | some _ => { s with selectedComponentId := some j }

/-- `drillInto` from `store.ts`: a no-op on a component with neither children
nor files; otherwise sets the drill target, rebuilds breadcrumbs, and clears
the selection. -/
def drillInto (arch : Architecture) (component : Component) (s : NavState) : NavState :=
  if component.children.length = 0 ∧ component.files.length = 0 then s
  else
    { breadcrumbs := buildBreadcrumbs arch.components component.id
      drillLevel := some component.id
      selectedComponentId := none }

/-- `drillUp` from `store.ts`: with at most one breadcrumb, reset to the
root view; otherwise move to the second-to-last breadcrumb. -/
def drillUp (s : NavState) : NavState :=
  if s.breadcrumbs.length ≤ 1 then ⟨[], none, none⟩
  else
    { breadcrumbs := s.breadcrumbs.dropLast
      drillLevel := (s.breadcrumbs.get? (s.breadcrumbs.length - 2)).map (fun b => b.id)
      selectedComponentId := none }

/-- `navigateToBreadcrumb` from `store.ts`. A negative index resets to the
root view. Otherwise the code reads `breadcrumbs[index].id`; when the index
is out of range this dereferences `undefined` and throws, modelled as
`Except.error` (the store state is then left unchanged, since `set` is never
reached). -/
def navigateToBreadcrumb (s : NavState) (index : Int) : Except String NavState :=
  if index < 0 then .ok ⟨[], none, none⟩
  else
    match s.breadcrumbs.get? index.toNat with
    | none => .error "TypeError: undefined has no property id"
    | some crumb =>
      .ok { breadcrumbs := s.breadcrumbs.take (index.toNat + 1)
            drillLevel := some crumb.id
            selectedComponentId := none }

/-- `getVisibleComponents` from `store.ts`: the top-level flattening when not
drilled; otherwise the drill target's children (or the target itself when it
has none), and `[]` when the drill id is not found. -/
def getVisibleComponents (arch : Architecture) (s : NavState) : List Component :=
  match s.drillLevel with
  | none => flattenTopLevel arch.components
  | some d =>
    match findComponent arch.components d with
    | none => []
    | some parent =>
      if parent.children.length > 0 then parent.children else [parent]

/-- `getComponentRelationships` from `store.ts`: the global relationship list
filtered to those whose two endpoints are both visible. -/
def getComponentRelationships (arch : Architecture) (s : NavState) : List Relationship :=
  let visible := getVisibleComponents arch s
  let visibleIds := visible.map Component.id
  arch.relationships.filter (fun r => visibleIds.contains r.source && visibleIds.contains r.target)

/-! ## Tree identity and ancestor-chain theory

Supporting notions (not part of the source): the multiset of ids occurring
anywhere in a component forest, the list of all components of a forest, and
root-to-node ancestor chains. These let us state and prove what
`buildBreadcrumbs` computes. -/

/-- All component ids occurring anywhere in a forest, in depth-first order. -/
def allIds : List Component → List String
  | [] => []
  | c :: rest => c.id :: (allIds c.children ++ allIds rest)
termination_by l => sizeOf l
decreasing_by
  all_goals have := Component.sizeOf_children_lt c
  all_goals simp
  all_goals omega

/-- All components occurring anywhere in a forest, in depth-first order. -/
def treeMembers : List Component → List Component
  | [] => []
  | c :: rest => c :: (treeMembers c.children ++ treeMembers rest)
termination_by l => sizeOf l
decreasing_by
  all_goals have := Component.sizeOf_children_lt c
  all_goals simp
  all_goals omega

/-- The breadcrumb entry `buildBreadcrumbs` records for a component. -/
def crumbOf (c : Component) : BreadcrumbItem := ⟨c.id, c.name, c.type⟩

/-- A root-to-node ancestor chain in a forest: the head is a root of the
forest and each later element is a child of its predecessor. -/
inductive Chain : List Component → List Component → Prop where
  | single {comps : List Component} {c : Component} : c ∈ comps → Chain comps [c]
  | cons {comps : List Component} {c : Component} {cs : List Component} :
      c ∈ comps → Chain c.children cs → Chain comps (c :: cs)

theorem Chain.ne_nil {comps cs} (h : Chain comps cs) : cs ≠ [] := by
  cases h <;> simp

theorem mem_allIds_of_mem {c : Component} {comps : List Component} (h : c ∈ comps) :
    c.id ∈ allIds comps := by
  induction comps with
  | nil => cases h
  | cons b rest ih =>
    rcases List.mem_cons.mp h with rfl | hm
    · simp [allIds]
    · simp [allIds, ih hm]

theorem allIds_children_sublist {c : Component} {comps : List Component} (h : c ∈ comps) :
    (allIds c.children).Sublist (allIds comps) := by
  induction comps with
  | nil => cases h
  | cons b rest ih =>
    rcases List.mem_cons.mp h with rfl | hm
    · rw [allIds]
      exact ((List.sublist_append_left _ _).trans (List.sublist_cons_self _ _))
    · rw [allIds]
      exact ((ih hm).trans (List.sublist_append_right _ _)).trans (List.sublist_cons_self _ _)

theorem allIds_children_subset {c : Component} {comps : List Component} (h : c ∈ comps) :
    ∀ x ∈ allIds c.children, x ∈ allIds comps :=
  fun _ hx => (allIds_children_sublist h).subset hx

theorem chain_mem_allIds {comps cs} (h : Chain comps cs) :
    ∀ e ∈ cs, e.id ∈ allIds comps := by
  induction h with
  | single hm => intro e he; simp at he; subst he; exact mem_allIds_of_mem hm
  | cons hm _ ih =>
    intro e he
    rcases List.mem_cons.mp he with rfl | he'
    · exact mem_allIds_of_mem hm
    · exact allIds_children_subset hm _ (ih e he')

theorem chain_cons_of_tail {b : Component} {rest cs} (h : Chain rest cs) :
    Chain (b :: rest) cs := by
  cases h with
  | single hm => exact .single (List.mem_cons_of_mem _ hm)
  | cons hm hch => exact .cons (List.mem_cons_of_mem _ hm) hch

/-- If the target id occurs nowhere in the forest, the breadcrumb search
fails. -/
theorem searchCrumbs_eq_none (comps : List Component) (acc : List BreadcrumbItem) (t : String)
    (h : t ∉ allIds comps) : searchCrumbs comps acc t = none := by
  induction comps, acc, t using searchCrumbs.induct with
  | case1 a b => rw [searchCrumbs]
  | case2 c rest path =>
    exact absurd (by rw [allIds]; exact List.mem_cons_self _ _) h
  | case3 c rest path tgt current hne trail hsc ihc =>
    exfalso
    have hnc : tgt ∉ allIds c.children := by
      intro hx; exact h (by rw [allIds]; simp [hx])
    rw [ihc hnc] at hsc
    cases hsc
  | case4 c rest path tgt current hne hsc ihc ihr =>
    have hnr : tgt ∉ allIds rest := by
      intro hx; exact h (by rw [allIds]; simp [hx])
    rw [searchCrumbs]
    simp only [if_neg hne, hsc]
    exact ihr hnr

/-- If the target id occurs nowhere in the forest, `findComponent` fails. -/
theorem findComponent_eq_none (comps : List Component) (t : String)
    (h : t ∉ allIds comps) : findComponent comps t = none := by
  induction comps, t using findComponent.induct with
  | case1 a => rw [findComponent]
  | case2 c rest =>
    exact absurd (by rw [allIds]; exact List.mem_cons_self _ _) h
  | case3 c rest i hne found hf ihc =>
    exfalso
    have hnc : i ∉ allIds c.children := by
      intro hx; exact h (by rw [allIds]; simp [hx])
    rw [ihc hnc] at hf
    cases hf
  | case4 c rest i hne hf ihc ihr =>
    have hnr : i ∉ allIds rest := by
      intro hx; exact h (by rw [allIds]; simp [hx])
    rw [findComponent]
    simp only [if_neg hne, hf]
    exact ihr hnr

theorem mem_of_getLast?_eq {α : Type _} {l : List α} {a : α} (h : l.getLast? = some a) :
    a ∈ l := by
  rcases List.mem_getLast?_eq_getLast (Option.mem_def.mpr h) with ⟨hne, rfl⟩
  exact List.getLast_mem hne

/-- Decomposition of id-uniqueness at the head of a forest. -/
theorem nodup_allIds_parts {c : Component} {rest : List Component}
    (h : (allIds (c :: rest)).Nodup) :
    c.id ∉ allIds c.children ∧ c.id ∉ allIds rest ∧ (allIds c.children).Nodup ∧
    (allIds rest).Nodup ∧ ∀ x ∈ allIds c.children, x ∉ allIds rest := by
  rw [allIds] at h
  rcases List.nodup_cons.mp h with ⟨hni, hnd⟩
  rcases List.nodup_append.mp hnd with ⟨h1, h2, hdis⟩
  exact ⟨fun hx => hni (List.mem_append_left _ hx),
         fun hx => hni (List.mem_append_right _ hx), h1, h2,
         fun x hx hy => hdis hx hy⟩

/-- Every component of a forest has an ancestor chain ending at it. -/
theorem chain_of_mem_treeMembers {X : Component} :
    ∀ {comps : List Component}, X ∈ treeMembers comps →
      ∃ cs, Chain comps cs ∧ cs.getLast? = some X := by
  intro comps
  induction comps using treeMembers.induct with
  | case1 => intro h; rw [treeMembers] at h; cases h
  | case2 c rest ihc ihr =>
    intro h
    rw [treeMembers] at h
    rcases List.mem_cons.mp h with rfl | h'
    · exact ⟨[X], .single (List.mem_cons_self _ _), rfl⟩
    · rcases List.mem_append.mp h' with hc | hr
      · rcases ihc hc with ⟨cs, hch, hlast⟩
        refine ⟨c :: cs, .cons (List.mem_cons_self _ _) hch, ?_⟩
        cases cs with
        | nil => exact absurd rfl hch.ne_nil
        | cons d t => rw [List.getLast?_cons_cons]; exact hlast
      · rcases ihr hr with ⟨cs, hch, hlast⟩
        exact ⟨cs, chain_cons_of_tail hch, hlast⟩

/-- Under globally unique ids, the breadcrumb search started from any
accumulated path finds exactly the ancestor chain of its target: the result
is the accumulator followed by the chain's breadcrumb entries. -/
theorem searchCrumbs_chain :
    ∀ (cs : List Component) {comps : List Component} {tgt : String}
      (acc : List BreadcrumbItem),
      (allIds comps).Nodup → Chain comps cs →
      (cs.getLast?).map Component.id = some tgt →
      searchCrumbs comps acc tgt = some (acc ++ cs.map crumbOf) := by
  intro cs
  induction cs with
  | nil =>
    intro comps tgt acc _ hch _
    exact absurd rfl hch.ne_nil
  | cons c cs' ih =>
    intro comps tgt acc hnd hch hlast
    cases hch with
    | single hm =>
      have htgt : c.id = tgt := by simpa using hlast
      subst htgt
      clear hlast
      revert hnd
      induction hm with
      | head rest =>
        intro _
        rw [searchCrumbs]
        simp [crumbOf]
      | tail b hm ihm =>
        intro hnd
        rcases nodup_allIds_parts hnd with ⟨_, hbr, _, hndl, hdis⟩
        have hcl : c.id ∈ allIds _ := mem_allIds_of_mem hm
        have hbne : ¬ (b.id = c.id) := fun he => hbr (he ▸ hcl)
        have hbch : c.id ∉ allIds b.children := fun hx => hdis _ hx hcl
        rw [searchCrumbs]
        simp only [if_neg hbne, searchCrumbs_eq_none _ _ _ hbch]
        exact ihm hndl
    | cons hm hch' =>
      have hcs' : cs' ≠ [] := hch'.ne_nil
      obtain ⟨e, he⟩ := Option.isSome_iff_exists.mp (List.getLast?_isSome.mpr hcs')
      have hlast' : (cs'.getLast?).map Component.id = some tgt := by
        cases cs' with
        | nil => exact absurd rfl hcs'
        | cons d t => rw [← List.getLast?_cons_cons (l := t) (a := c)]; exact hlast
      have htgt_child : tgt ∈ allIds c.children := by
        have heid : e.id = tgt := by rw [he] at hlast'; simpa using hlast'
        exact heid ▸ chain_mem_allIds hch' e (mem_of_getLast?_eq he)
      revert hnd
      induction hm with
      | head rest =>
        intro hnd
        rcases nodup_allIds_parts hnd with ⟨hcc, _, hndc, _, _⟩
        have hcne : ¬ (c.id = tgt) := fun h => hcc (h ▸ htgt_child)
        rw [searchCrumbs]
        simp only [if_neg hcne,
          ih (acc ++ [⟨c.id, c.name, c.type⟩]) hndc hch' hlast']
        simp [crumbOf]
      | tail b hm ihm =>
        intro hnd
        rcases nodup_allIds_parts hnd with ⟨_, hbr, _, hndl, hdis⟩
        have htl : tgt ∈ allIds _ := allIds_children_subset hm _ htgt_child
        have hbne : ¬ (b.id = tgt) := fun h => hbr (h ▸ htl)
        have hbch : tgt ∉ allIds b.children := fun hx => hdis _ hx htl
        rw [searchCrumbs]
        simp only [if_neg hbne, searchCrumbs_eq_none _ _ _ hbch]
        exact ihm hndl

/-- Under globally unique ids, `buildBreadcrumbs` of a chain target is the
chain's breadcrumb trail. -/
theorem buildBreadcrumbs_chain {comps : List Component} {cs : List Component} {tgt : String}
    (hnd : (allIds comps).Nodup) (hch : Chain comps cs)
    (hlast : (cs.getLast?).map Component.id = some tgt) :
    buildBreadcrumbs comps tgt = cs.map crumbOf := by
  rw [buildBreadcrumbs, searchCrumbs_chain cs [] hnd hch hlast]
  rfl

/-- Dropping the last element of an ancestor chain of length at least two
leaves an ancestor chain. -/
theorem chain_dropLast {comps cs} (h : Chain comps cs) (hlen : 2 ≤ cs.length) :
    Chain comps cs.dropLast := by
  induction h with
  | single hm => simp at hlen
  | cons hm hch ih =>
    rename_i comps c cs'
    have hne : cs' ≠ [] := hch.ne_nil
    cases cs' with
    | nil => exact absurd rfl hne
    | cons d t =>
      rw [List.dropLast_cons₂]
      cases t with
      | nil => exact .single hm
      | cons d' t' =>
        exact .cons hm (ih (by simp))

/-- Any non-empty prefix of an ancestor chain is an ancestor chain. -/
theorem chain_take {comps cs} (h : Chain comps cs) :
    ∀ i, Chain comps (cs.take (i + 1)) := by
  induction h with
  | single hm => intro i; simpa using Chain.single hm
  | cons hm hch ih =>
    intro i
    cases i with
    | zero => simpa using Chain.single hm
    | succ j => exact .cons hm (ih j)

theorem getLast?_dropLast_eq {α : Type _} (l : List α) (h : 2 ≤ l.length) :
    l.dropLast.getLast? = l.get? (l.length - 2) := by
  rw [List.getLast?_eq_getElem?, List.length_dropLast, List.getElem?_dropLast,
    List.get?_eq_getElem?, if_pos (by omega)]
  have he : l.length - 1 - 1 = l.length - 2 := by omega
  rw [he]

theorem getLast?_take_eq {α : Type _} (l : List α) (i : Nat) (h : i < l.length) :
    (l.take (i + 1)).getLast? = l.get? i := by
  rw [List.getLast?_eq_getElem?, List.length_take, List.getElem?_take,
    List.get?_eq_getElem?, min_eq_left (by omega), if_pos (by omega)]
  have he : i + 1 - 1 = i := by omega
  rw [he]

theorem get?_map_eq {α β : Type _} (f : α → β) (l : List α) (n : Nat) :
    (l.map f).get? n = (l.get? n).map f := by
  simp [List.get?_eq_getElem?]

/-! ## The drill navigation machine -/

/-- States reachable from the initial state through the navigation actions.
`drillInto` is invoked — as every UI call site does — on components of the
loaded tree. A `navigateToBreadcrumb` call that throws leaves the state
unchanged (the `set` is never reached), so only `ok` results give new
states. -/
inductive Reachable (arch : Architecture) : NavState → Prop where
  | init : Reachable arch initialNavState
  | drill {s : NavState} {X : Component} :
      Reachable arch s → X ∈ treeMembers arch.components →
      Reachable arch (drillInto arch X s)
  | up {s : NavState} : Reachable arch s → Reachable arch (drillUp s)
  | nav {s s' : NavState} {i : Int} :
      Reachable arch s → navigateToBreadcrumb s i = .ok s' → Reachable arch s'
  | select {s : NavState} {i : Option String} :
      Reachable arch s → Reachable arch (selectComponent arch i s)

/-- The breadcrumb invariant: no trail at the root view; when drilled, the
trail is the breadcrumb image of a root-to-target ancestor chain. -/
def BreadcrumbInv (comps : List Component) (s : NavState) : Prop :=
  match s.drillLevel with
  | none => s.breadcrumbs = []
  | some d => ∃ cs, Chain comps cs ∧ (cs.getLast?).map Component.id = some d ∧
      s.breadcrumbs = cs.map crumbOf

theorem breadcrumbInv_update_selected {comps : List Component} {s : NavState}
    {x : Option String} :
    BreadcrumbInv comps { s with selectedComponentId := x } ↔ BreadcrumbInv comps s := by
  cases s
  exact Iff.rfl

/-- Every reachable state satisfies the breadcrumb invariant, provided ids
are globally unique. -/
theorem breadcrumbInv_reachable {arch : Architecture} {s : NavState}
    (hnd : (allIds arch.components).Nodup) (hr : Reachable arch s) :
    BreadcrumbInv arch.components s := by
  induction hr with
  | init => simp [BreadcrumbInv, initialNavState]
  | drill hr hm ih =>
    rename_i s X
    rw [drillInto]
    by_cases hg : X.children.length = 0 ∧ X.files.length = 0
    · rw [if_pos hg]; exact ih
    · rw [if_neg hg]
      rcases chain_of_mem_treeMembers hm with ⟨cs, hch, hlast⟩
      have hlast' : (cs.getLast?).map Component.id = some X.id := by rw [hlast]; rfl
      exact ⟨cs, hch, hlast', buildBreadcrumbs_chain hnd hch hlast'⟩
  | up hr ih =>
    rename_i s
    rw [drillUp]
    by_cases hlen : s.breadcrumbs.length ≤ 1
    · rw [if_pos hlen]
      simp [BreadcrumbInv]
    · rw [if_neg hlen]
      cases hd : s.drillLevel with
      | none =>
        exfalso
        simp only [BreadcrumbInv, hd] at ih
        rw [ih] at hlen
        simp at hlen
      | some d =>
        simp only [BreadcrumbInv, hd] at ih
        rcases ih with ⟨cs, hch, _, hbc⟩
        have hcl : s.breadcrumbs.length = cs.length := by rw [hbc]; simp
        have h2 : 2 ≤ cs.length := by omega
        have hdne : cs.dropLast ≠ [] := by
          have : cs.dropLast.length = cs.length - 1 := List.length_dropLast cs
          intro hn; rw [hn] at this; simp at this; omega
        obtain ⟨e, he⟩ := Option.isSome_iff_exists.mp (List.getLast?_isSome.mpr hdne)
        have hget : s.breadcrumbs.get? (s.breadcrumbs.length - 2) = some (crumbOf e) := by
          rw [hbc, get?_map_eq, List.length_map, ← getLast?_dropLast_eq cs h2, he]
          rfl
        rw [hget]
        refine ⟨cs.dropLast, chain_dropLast hch h2, by rw [he]; rfl, ?_⟩
        show s.breadcrumbs.dropLast = cs.dropLast.map crumbOf
        rw [hbc, List.map_dropLast]
  | nav hr hok ih =>
    rename_i s s' i
    rw [navigateToBreadcrumb] at hok
    by_cases hi : i < 0
    · rw [if_pos hi] at hok
      have := Except.ok.inj hok
      subst this
      simp [BreadcrumbInv]
    · rw [if_neg hi] at hok
      cases hg : s.breadcrumbs.get? i.toNat with
      | none => rw [hg] at hok; cases hok
      | some crumb =>
        rw [hg] at hok
        have := Except.ok.inj hok
        subst this
        have hlt : i.toNat < s.breadcrumbs.length := by
          by_contra hge
          rw [List.get?_eq_none.mpr (Nat.le_of_not_lt hge)] at hg
          cases hg
        cases hd : s.drillLevel with
        | none =>
          exfalso
          simp only [BreadcrumbInv, hd] at ih
          rw [ih] at hg
          cases hg
        | some d =>
          simp only [BreadcrumbInv, hd] at ih
          rcases ih with ⟨cs, hch, _, hbc⟩
          have hcl : s.breadcrumbs.length = cs.length := by rw [hbc]; simp
          have hlt' : i.toNat < cs.length := by omega
          rw [hbc, get?_map_eq] at hg
          rcases Option.map_eq_some'.mp hg with ⟨e, hge, hce⟩
          have hcrumb : crumb.id = e.id := by rw [← hce]; rfl
          rw [hcrumb]
          refine ⟨cs.take (i.toNat + 1), chain_take hch i.toNat, ?_, ?_⟩
          · rw [getLast?_take_eq cs i.toNat hlt', hge]
            rfl
          · show s.breadcrumbs.take (i.toNat + 1) = (cs.take (i.toNat + 1)).map crumbOf
            rw [hbc, List.map_take]
  | select hr ih =>
    rename_i s i
    unfold selectComponent
    cases i with
    | none => exact breadcrumbInv_update_selected.mpr ih
    | some j =>
      cases hf : findComponent arch.components j with
      | none => simp only [hf]; exact ih
      | some c => simp only [hf]; exact breadcrumbInv_update_selected.mpr ih

/-! ## Edge anchor selection (`layout.ts`, `computeOptimalHandles`) -/

/-- A 2-D position (`{x, y}`), modelled over ℚ. -/
structure Pos where
  x : ℚ
  y : ℚ

/-- A box size (`{width, height}`), modelled over ℚ. -/
structure BoxSize where
  width : ℚ
  height : ℚ

/-- `computeOptimalHandles` from `layout.ts`: choose the handle pair for an
edge from the relative positions of the two node boxes. -/
def computeOptimalHandles (sourcePos : Pos) (sourceSize : BoxSize)
    (targetPos : Pos) (targetSize : BoxSize) : String × String :=
  let sx := sourcePos.x + sourceSize.width / 2
  let sy := sourcePos.y + sourceSize.height / 2
  let tx := targetPos.x + targetSize.width / 2
  let ty := targetPos.y + targetSize.height / 2
  let dx := tx - sx
  let dy := ty - sy
  let absDx := |dx|
  let absDy := |dy|
  if absDx ≥ absDy then
    if dx ≥ 0 then ("source-right", "target-left") else ("source-left", "target-right")
  else
    if dy ≥ 0 then ("source-bottom", "target-top") else ("source-top", "target-bottom")

/-- Modelled from the spec (§4.5 Edge Router wording): the anchor pair as a
function of the center deltas alone — horizontal pair when `|dx| ≥ |dy|`
(by the sign of `dx`), vertical pair otherwise (by the sign of `dy`). -/
def chooseAnchorsSpec (dx dy : ℚ) : String × String :=
  if |dx| ≥ |dy| then
    if dx ≥ 0 then ("source-right", "target-left") else ("source-left", "target-right")
  else
    if dy ≥ 0 then ("source-bottom", "target-top") else ("source-top", "target-bottom")

/-! ## Layout race model (`ArchitectureGraph.tsx`, layout effect)

The layout effect reacts to each visible-set change by clearing only the
pending fit-view timer and then calling `getLayoutedElements(...).then(...)`
whose continuation stores its own call's result with `setNodes`/`setEdges`
unconditionally: requests carry no version tag and no in-flight result is
ever suppressed. We model an execution as a trace of `start i` (the layout
call initiated by the i-th visible-set change) and `resolve i` (that call's
promise resolving, running the continuation); the rendered arrays therefore
always hold the most recently resolved call's result. -/

inductive LayoutEvent where
  | start (i : Nat)
  | resolve (i : Nat)
deriving DecidableEq, Repr

/-- Schedule well-formedness: each call id is started at most once and
resolved at most once, and only after its start. -/
def validFrom : List Nat → List Nat → List LayoutEvent → Bool
  | _, _, [] => true
  | started, resolved, .start i :: t =>
    !(started.contains i) && validFrom (i :: started) resolved t
  | started, resolved, .resolve i :: t =>
    started.contains i && !(resolved.contains i) && validFrom started (i :: resolved) t

/-- A well-formed schedule of layout calls and promise resolutions. -/
def ValidTrace (t : List LayoutEvent) : Bool := validFrom [] [] t

/-- The call whose result the rendered node/edge arrays hold after the
trace: each resolution stores its result unconditionally, so it is the most
recently resolved call. -/
def finalApplied (t : List LayoutEvent) : Option Nat :=
  t.foldl (fun acc e => match e with | .start _ => acc | .resolve i => some i) none

/-- The reconciliation property the specification claims: every applied
result belongs to the most recently initiated call at the moment it is
applied (first argument: the most recently initiated call so far). -/
def onlyLatestApplied : Option Nat → List LayoutEvent → Bool
  | _, [] => true
  | _, .start i :: t => onlyLatestApplied (some i) t
  | latest, .resolve i :: t => latest == some i && onlyLatestApplied latest t

/-! ## Concrete instances used by counterexamples and witnesses -/

/-- Scenario C's plain module `A`: 3 files, no children. -/
def c1A : Component := .mk "A" "A" "module" [] ["a1", "a2", "a3"]

/-- Scenario C's hero `B`: a `service` (hero "server" category). -/
def c1B : Component := .mk "B" "B" "service" [] ["b1"]

/-- Scenario C's drilled parent `P` with children `[A, B]`. -/
def c1P : Component := .mk "P" "P" "module" [c1A, c1B] []

def c1Arch : Architecture := ⟨[c1P], []⟩

/-- The store state drilled into `P`. -/
def c1State : NavState := ⟨[crumbOf c1P], some "P", none⟩

def c2X : Component := .mk "X" "X" "module" [] ["x1"]
def c2B : Component := .mk "B" "B" "module" [c2X] []
def c2Arch : Architecture := ⟨[c2B], []⟩

/-- A non-code content component with no hero descendants. -/
def c3Content : Component := .mk "docs" "docs" "content" [] ["readme.md"]

def c4Web : Component := .mk "web" "web" "web-client" [] ["w1"]
def c4S1 : Component := .mk "s1" "s1" "api-server" [] ["f1"]
def c4S2 : Component := .mk "s2" "s2" "api-server" [] ["f2"]

/-- The only relationship marks `s1` (endpoint of a client edge), not `s2`. -/
def c4Rel : Relationship := ⟨"web", "s1", "http", none, none, none, false⟩

def c4Arch : Architecture := ⟨[c4Web, c4S1, c4S2], [c4Rel]⟩

def c5Leaf : Component := .mk "leaf" "leaf" "module" [] ["l1"]
def c5Arch : Architecture := ⟨[c5Leaf], []⟩
def c5State : NavState := ⟨[crumbOf c5Leaf], some "leaf", none⟩

def c6Leaf : Component := .mk "leaf" "leaf" "module" [] ["f1"]
def c6Root : Component := .mk "root" "root" "module" [c6Leaf] []
def c6Arch : Architecture := ⟨[c6Root], []⟩

def c8A : Component := .mk "a" "a" "module" [] ["fa"]
def c8B : Component := .mk "b" "b" "module" [] ["fb"]
def c8Rel : Relationship := ⟨"a", "b", "import", none, none, none, false⟩
def c8Arch : Architecture := ⟨[c8A, c8B], [c8Rel]⟩

def c10X : Component := .mk "X" "X" "module" [] ["x1"]
def c10Arch : Architecture := ⟨[c10X], []⟩
def c10State : NavState := ⟨[], none, some "X"⟩

/-! ## Claim theorems -/

/-- C7: `computeOptimalHandles` is a pure function of the center deltas
`dx, dy`, choosing the horizontal pair (by the sign of `dx`) when
`|dx| ≥ |dy|` and the vertical pair (by the sign of `dy`) otherwise; the
tie `|dx| = |dy|` resolves to the horizontal pair. -/
theorem c7_anchor_determinism :
    (∀ (sp : Pos) (ss : BoxSize) (tp : Pos) (ts : BoxSize),
      computeOptimalHandles sp ss tp ts =
        chooseAnchorsSpec ((tp.x + ts.width / 2) - (sp.x + ss.width / 2))
          ((tp.y + ts.height / 2) - (sp.y + ss.height / 2))) ∧
    (∀ dx dy : ℚ, |dx| = |dy| →
      chooseAnchorsSpec dx dy =
        if dx ≥ 0 then ("source-right", "target-left")
        else ("source-left", "target-right")) := by
  constructor
  · intro sp ss tp ts
    rfl
  · intro dx dy h
    rw [chooseAnchorsSpec, if_pos (le_of_eq h.symm)]

theorem c7_anchor_determinism_witness :
    computeOptimalHandles ⟨0, 0⟩ ⟨2, 2⟩ ⟨3, 0⟩ ⟨2, 2⟩ =
      chooseAnchorsSpec ((3 + 2 / 2) - (0 + 2 / 2)) ((0 + 2 / 2) - (0 + 2 / 2)) ∧
    chooseAnchorsSpec 3 (-3) = ("source-right", "target-left") := by
  constructor
  · exact c7_anchor_determinism.1 ⟨0, 0⟩ ⟨2, 2⟩ ⟨3, 0⟩ ⟨2, 2⟩
  · have h := c7_anchor_determinism.2 3 (-3) (by norm_num)
    simpa using h

/-- C9 counterexample: the schedule "change 0 starts a layout call, change 1
starts another, call 1 resolves, then the superseded call 0 resolves" is
well-formed, violates "only the most recently initiated call's result is
ever applied", and leaves the superseded call's result as the rendered
state. -/
theorem c9_counterexample :
    ValidTrace [.start 0, .start 1, .resolve 1, .resolve 0] = true ∧
    onlyLatestApplied none [.start 0, .start 1, .resolve 1, .resolve 0] = false ∧
    finalApplied [.start 0, .start 1, .resolve 1, .resolve 0] = some 0 := by
  decide

/-- C9 (amended): the layout effect applies every resolved result
unconditionally — after any schedule ending with `resolve i`, the rendered
arrays hold call `i`'s result, whether or not a later-initiated call had
already resolved; most-recent-wins holds only when calls resolve in
initiation order. -/
theorem c9_unconditional_result_application :
    ∀ (t : List LayoutEvent) (i : Nat),
      ValidTrace (t ++ [.resolve i]) = true →
      finalApplied (t ++ [.resolve i]) = some i := by
  intro t i _
  rw [finalApplied, List.foldl_append]
  rfl

theorem c9_unconditional_result_application_witness :
    finalApplied ([.start 0, .start 1, .resolve 1] ++ [.resolve 0]) = some 0 :=
  c9_unconditional_result_application [.start 0, .start 1, .resolve 1] 0 (by decide)

/-- C10: every drill-state-changing navigation action clears the selection:
`drillInto` on a component with children or files, `drillUp` in any state,
and `navigateToBreadcrumb` for any negative or in-range index (the indices
for which it completes). -/
theorem c10_navigation_clears_selection :
    (∀ (arch : Architecture) (X : Component) (s : NavState),
      ¬(X.children.length = 0 ∧ X.files.length = 0) →
      (drillInto arch X s).selectedComponentId = none) ∧
    (∀ s : NavState, (drillUp s).selectedComponentId = none) ∧
    (∀ (s : NavState) (i : Int) (s' : NavState),
      navigateToBreadcrumb s i = .ok s' → s'.selectedComponentId = none) := by
  refine ⟨?_, ?_, ?_⟩
  · intro arch X s hg
    rw [drillInto, if_neg hg]
  · intro s
    rw [drillUp]
    by_cases h : s.breadcrumbs.length ≤ 1
    · rw [if_pos h]
    · rw [if_neg h]
  · intro s i s' hok
    rw [navigateToBreadcrumb] at hok
    by_cases hi : i < 0
    · rw [if_pos hi] at hok
      rw [← Except.ok.inj hok]
    · rw [if_neg hi] at hok
      cases hg : s.breadcrumbs.get? i.toNat with
      | none => rw [hg] at hok; cases hok
      | some crumb =>
        rw [hg] at hok
        rw [← Except.ok.inj hok]

theorem c10_navigation_clears_selection_witness :
    (drillInto c10Arch c10X c10State).selectedComponentId = none ∧
    (drillUp c10State).selectedComponentId = none ∧
    (⟨[], none, none⟩ : NavState).selectedComponentId = none :=
  ⟨c10_navigation_clears_selection.1 c10Arch c10X c10State (by decide),
   c10_navigation_clears_selection.2.1 c10State,
   c10_navigation_clears_selection.2.2 c10State (-1) ⟨[], none, none⟩ (by rfl)⟩

/-- C8: every relationship returned by `getComponentRelationships` has both
endpoints among the ids of the currently visible components, for every
architecture and drill state. -/
theorem c8_relationship_containment :
    ∀ (arch : Architecture) (s : NavState) (r : Relationship),
      r ∈ getComponentRelationships arch s →
      r.source ∈ (getVisibleComponents arch s).map Component.id ∧
      r.target ∈ (getVisibleComponents arch s).map Component.id := by
  intro arch s r hr
  rw [getComponentRelationships] at hr
  have hp := List.of_mem_filter hr
  simp only [Bool.and_eq_true] at hp
  exact ⟨by simpa using hp.1, by simpa using hp.2⟩

theorem c8_relationship_containment_witness :
    c8Rel.source ∈ (getVisibleComponents c8Arch initialNavState).map Component.id ∧
    c8Rel.target ∈ (getVisibleComponents c8Arch initialNavState).map Component.id :=
  c8_relationship_containment c8Arch initialNavState c8Rel (by
    simp [getComponentRelationships, getVisibleComponents, initialNavState,
      flattenTopLevel, collectHeroComponents, isHeroType, HERO_TYPES,
      c8Arch, c8A, c8B, c8Rel, Component.id, Component.type, Component.children])

/-- C1 counterexample: for the drilled parent `P` with children
`[A (plain module, 3 files, no children), B (hero service)]`, the drilled
visible set is `[A, B]` — component `A` is not dropped, so the claimed
declutter rule (visible set exactly `[B]`) does not hold of the code. -/
theorem c1_counterexample :
    (getVisibleComponents c1Arch c1State).map Component.id = ["A", "B"] ∧
    (getVisibleComponents c1Arch c1State).map Component.id ≠ ["B"] ∧
    isHeroType c1B.type = true ∧ isHeroType c1A.type = false ∧
    c1A.children = [] ∧ c1A.files.length < 10 := by
  have h : (getVisibleComponents c1Arch c1State).map Component.id = ["A", "B"] := by
    simp [getVisibleComponents, c1State, c1Arch, findComponent, c1P, c1A, c1B,
      Component.id, Component.children]
  refine ⟨h, by rw [h]; decide, by decide, by decide, rfl, by decide⟩

/-- C1 (amended): the drilled visible-set computation applies no declutter
rule at all — whenever the drill target is found and has children, the
visible set is exactly its full children list. -/
theorem c1_drilled_children_passthrough :
    ∀ (arch : Architecture) (s : NavState) (d : String) (p : Component),
      s.drillLevel = some d → findComponent arch.components d = some p →
      p.children ≠ [] → getVisibleComponents arch s = p.children := by
  intro arch s d p hd hf hne
  unfold getVisibleComponents
  simp only [hd, hf]
  rw [if_pos (List.length_pos.mpr hne)]

theorem c1_drilled_children_passthrough_witness :
    getVisibleComponents c1Arch c1State = c1P.children :=
  c1_drilled_children_passthrough c1Arch c1State "P" c1P rfl
    (by simp [findComponent, c1Arch, c1P, Component.id])
    (by simp [c1P, Component.children])

/-- C3 counterexample: the top-level flattening surfaces a content-typed
component — a `content` component with no hero descendants is returned as a
top-level peer, so `flattenTopLevel` does not exclude the "content"
category. -/
theorem c3_counterexample :
    (flattenTopLevel [c3Content]).map Component.type = ["content"] ∧
    (flattenTopLevel [c3Content]).map Component.id = ["docs"] := by
  constructor <;>
    simp [flattenTopLevel, collectHeroComponents, isHeroType, HERO_TYPES,
      c3Content, Component.id, Component.type, Component.children]

/-- C3 (amended): `flattenTopLevel` applies no content-category exclusion:
any childless component of a non-hero, non-structural (non-`project`,
non-`repository`) category — the "content" category included — is itself
surfaced at top level. -/
theorem c3_no_content_exclusion :
    ∀ c : Component, isHeroType c.type = false → c.type ≠ "project" →
      c.type ≠ "repository" → c.children = [] →
      flattenTopLevel [c] = [c] := by
  intro c h1 h2 h3 h4
  rw [flattenTopLevel.eq_def]
  rw [collectHeroComponents]
  simp [h1, h2, h3, h4, collectHeroComponents]

theorem c3_no_content_exclusion_witness :
    flattenTopLevel [c3Content] = [c3Content] :=
  c3_no_content_exclusion c3Content (by decide) (by decide) (by decide) rfl

theorem mem_collectHeroComponents_of_hero {comps : List Component} {c : Component}
    (hm : c ∈ comps) (hh : isHeroType c.type = true) :
    c ∈ collectHeroComponents comps := by
  induction comps with
  | nil => cases hm
  | cons b rest ih =>
    rw [collectHeroComponents]
    rcases List.mem_cons.mp hm with rfl | hm'
    · have hnp : ¬ (c.type = "project") := by
        intro h; rw [h] at hh; exact absurd hh (by decide)
      have hnr : ¬ (c.type = "repository") := by
        intro h; rw [h] at hh; exact absurd hh (by decide)
      rw [if_neg hnp, if_neg hnr, if_pos hh]
      exact List.mem_append_left _ (List.mem_cons_self _ _)
    · exact List.mem_append_right _ (ih hm')

/-- C4 counterexample: with one client `web`, two server candidates `s1`,
`s2`, and a single relationship `web → s1` (marking `s1` client-facing and
leaving `s2` unmarked), the top-level result still contains `s2`: the code
performs no relationship-based filtering of Domain-2 candidates, so the
claimed "exactly Domain-1 + marked Domain-2" output does not hold. -/
theorem c4_counterexample :
    (flattenTopLevel c4Arch.components).map Component.id = ["web", "s1", "s2"] ∧
    (flattenTopLevel c4Arch.components).map Component.id ≠ ["web", "s1"] ∧
    isClientType c4Web.type = true ∧ isServerType c4S1.type = true ∧
    isServerType c4S2.type = true ∧
    (∀ r ∈ c4Arch.relationships, r.source ≠ "s2" ∧ r.target ≠ "s2") ∧
    c4Arch.relationships = [c4Rel] := by
  have h : (flattenTopLevel c4Arch.components).map Component.id = ["web", "s1", "s2"] := by
    simp [flattenTopLevel, collectHeroComponents, isHeroType, HERO_TYPES,
      c4Arch, c4Web, c4S1, c4S2, Component.id, Component.type, Component.children]
  refine ⟨h, by rw [h]; decide, by decide, by decide, by decide, by decide, rfl⟩

/-- C4 (amended): `flattenTopLevel` takes only the component tree and
ignores relationships entirely: every hero-typed root component — in
particular every Domain-2 (server-typed) candidate, marked client-facing or
not — appears in the top-level result. -/
theorem c4_heroes_unfiltered_by_relationships :
    ∀ (comps : List Component) (c : Component),
      c ∈ comps → isHeroType c.type = true → c ∈ flattenTopLevel comps := by
  intro comps c hm hh
  have hc := mem_collectHeroComponents_of_hero hm hh
  rw [flattenTopLevel.eq_def]
  have hlen : 0 < (collectHeroComponents comps).length :=
    List.length_pos.mpr (List.ne_nil_of_mem hc)
  simp only [if_pos hlen]
  exact hc

theorem c4_heroes_unfiltered_by_relationships_witness :
    c4S2 ∈ flattenTopLevel c4Arch.components :=
  c4_heroes_unfiltered_by_relationships c4Arch.components c4S2
    (List.mem_cons_of_mem _ (List.mem_cons_of_mem _ (List.mem_cons_self _ _)))
    (by decide)

/-- C5 counterexample: `navigateToBreadcrumb` with index `0` in a state with
an empty breadcrumb list (index ≥ length) reads `breadcrumbs[0].id`, i.e. a
property of `undefined`, and throws instead of completing. -/
theorem c5_counterexample :
    navigateToBreadcrumb initialNavState 0 =
      Except.error "TypeError: undefined has no property id" := rfl

/-- C5 (amended): `getComponentById` with an id absent from the tree returns
null, and `navigateToBreadcrumb` completes without an exception for every
negative index and every index below the breadcrumb list's length; an index
greater than or equal to the length, however, throws. -/
theorem c5_lookup_and_navigation_safety :
    (∀ (arch : Architecture) (i : String),
      i ∉ allIds arch.components → getComponentById arch i = none) ∧
    (∀ (s : NavState) (idx : Int),
      idx < 0 ∨ idx.toNat < s.breadcrumbs.length →
      ∃ s', navigateToBreadcrumb s idx = .ok s') := by
  constructor
  · intro arch i h
    exact findComponent_eq_none _ _ h
  · intro s idx h
    rw [navigateToBreadcrumb]
    by_cases hi : idx < 0
    · rw [if_pos hi]; exact ⟨_, rfl⟩
    · rw [if_neg hi]
      have hlt : idx.toNat < s.breadcrumbs.length := h.resolve_left hi
      cases hg : s.breadcrumbs.get? idx.toNat with
      | none =>
        rw [List.get?_eq_none] at hg
        omega
      | some crumb => exact ⟨_, rfl⟩

theorem c5_lookup_and_navigation_safety_witness :
    getComponentById c5Arch "zzz" = none ∧
    ∃ s', navigateToBreadcrumb c5State 0 = .ok s' :=
  ⟨c5_lookup_and_navigation_safety.1 c5Arch "zzz"
      (by simp [allIds, c5Arch, c5Leaf, Component.id, Component.children]),
   c5_lookup_and_navigation_safety.2 c5State 0
      (Or.inr (by simp [c5State]))⟩

set_option maxHeartbeats 1000000 in
/-- C2 counterexample: from the root view, drilling into the nested
component `X` (which has a file, hence substructure) and drilling up does
not restore the pre-drill state: it lands on `X`'s parent `B`, not back at
the root. -/
theorem c2_counterexample :
    drillUp (drillInto c2Arch c2X initialNavState) ≠ initialNavState ∧
    (drillUp (drillInto c2Arch c2X initialNavState)).drillLevel = some "B" ∧
    initialNavState.drillLevel = none ∧
    ¬(c2X.children.length = 0 ∧ c2X.files.length = 0) := by
  have h : drillInto c2Arch c2X initialNavState =
      ⟨[⟨"B", "B", "module"⟩, ⟨"X", "X", "module"⟩], some "X", none⟩ := by
    simp [drillInto, buildBreadcrumbs, searchCrumbs, c2Arch, c2B, c2X,
      Component.id, Component.name, Component.type, Component.children,
      Component.files, initialNavState]
  rw [h]
  exact ⟨by decide, by decide, rfl, by decide⟩

/-- C2 (amended): `drillInto(X); drillUp()` always lands on the state of
`X`'s breadcrumb parent (the root view when `X`'s trail has length ≤ 1); it
therefore restores the pre-drill `drillLevel` and `breadcrumbs` exactly when
the pre-drill state was that parent state with no selection — not for
arbitrary pre-drill states. -/
theorem c2_drill_roundtrip_parent :
    ∀ (arch : Architecture) (X : Component) (s : NavState),
      ¬(X.children.length = 0 ∧ X.files.length = 0) →
      s.breadcrumbs = (buildBreadcrumbs arch.components X.id).dropLast →
      s.drillLevel = (s.breadcrumbs.getLast?).map (fun b => b.id) →
      s.selectedComponentId = none →
      drillUp (drillInto arch X s) = s := by
  intro arch X s hg hbc hdl hsel
  rw [drillInto, if_neg hg]
  rw [drillUp]
  by_cases hlen : (buildBreadcrumbs arch.components X.id).length ≤ 1
  · rw [if_pos hlen]
    have hb0 : (buildBreadcrumbs arch.components X.id).dropLast = [] := by
      have : (buildBreadcrumbs arch.components X.id).dropLast.length = 0 := by
        rw [List.length_dropLast]; omega
      exact List.length_eq_zero.mp this
    rw [hb0] at hbc
    rw [hbc] at hdl
    simp only [List.getLast?_nil, Option.map_none'] at hdl
    cases s with
    | mk b d sel =>
      simp only at hbc hdl hsel
      rw [hbc, hdl, hsel]
  · rw [if_neg hlen]
    have h2 : 2 ≤ (buildBreadcrumbs arch.components X.id).length := by omega
    cases s with
    | mk b d sel =>
      simp only at hbc hdl hsel
      subst hbc
      subst hsel
      rw [hdl, getLast?_dropLast_eq _ h2]

set_option maxHeartbeats 1000000 in
theorem c2_drill_roundtrip_parent_witness :
    drillUp (drillInto c2Arch c2X
      ⟨[⟨"B", "B", "module"⟩], some "B", none⟩) =
      ⟨[⟨"B", "B", "module"⟩], some "B", none⟩ :=
  c2_drill_roundtrip_parent c2Arch c2X
    ⟨[⟨"B", "B", "module"⟩], some "B", none⟩
    (by decide)
    (by simp [buildBreadcrumbs, searchCrumbs, c2Arch, c2B, c2X,
      Component.id, Component.name, Component.type, Component.children])
    (by rfl)
    rfl

/-- C6: in every state reachable by the navigation operations (with
`drillInto` invoked on components of the loaded tree, as in every UI call
site) over a tree with globally unique ids, the breadcrumb trail is empty
exactly when no drill target is set, and when a drill target `d` is set the
trail is the root-to-`d` ancestor path: the breadcrumb image of an ancestor
chain ending at `d`, which is exactly what `buildBreadcrumbs` computes. -/
theorem c6_breadcrumbs_path_invariant :
    ∀ (arch : Architecture) (s : NavState),
      (allIds arch.components).Nodup → Reachable arch s →
      (s.breadcrumbs = [] ↔ s.drillLevel = none) ∧
      (∀ d, s.drillLevel = some d →
        ∃ cs, Chain arch.components cs ∧
          (cs.getLast?).map Component.id = some d ∧
          s.breadcrumbs = cs.map crumbOf ∧
          s.breadcrumbs = buildBreadcrumbs arch.components d) := by
  intro arch s hnd hr
  have hinv := breadcrumbInv_reachable hnd hr
  constructor
  · constructor
    · intro hb
      cases hd : s.drillLevel with
      | none => rfl
      | some d =>
        exfalso
        simp only [BreadcrumbInv, hd] at hinv
        rcases hinv with ⟨cs, hch, _, hbc⟩
        rw [hb] at hbc
        exact hch.ne_nil (List.map_eq_nil_iff.mp hbc.symm)
    · intro hd
      simp only [BreadcrumbInv, hd] at hinv
      exact hinv
  · intro d hd
    simp only [BreadcrumbInv, hd] at hinv
    rcases hinv with ⟨cs, hch, hlast, hbc⟩
    exact ⟨cs, hch, hlast, hbc, by rw [hbc, buildBreadcrumbs_chain hnd hch hlast]⟩

theorem c6_breadcrumbs_path_invariant_witness :
    ((drillInto c6Arch c6Leaf initialNavState).breadcrumbs = [] ↔
      (drillInto c6Arch c6Leaf initialNavState).drillLevel = none) :=
  (c6_breadcrumbs_path_invariant c6Arch (drillInto c6Arch c6Leaf initialNavState)
    (by simp [allIds, c6Arch, c6Root, c6Leaf, Component.id, Component.children])
    (Reachable.drill Reachable.init
      (by simp [treeMembers, c6Arch, c6Root, c6Leaf, Component.children]))).1
